import Mathlib

/-!
Verification of the rate-limiting algorithms repository
(`rateLimiters/token-bucket.go`, `rateLimiters/fixed-window-counter.go`,
`rateLimiters/sliding-window-log.go`, which also contains `LeakyBucket`).

Shallow embedding conventions:
* `time.Time` and `time.Duration` are modelled as rationals (seconds);
  Go's `t2.Sub(t1).Seconds()` becomes `t2 - t1`, and `t.Add(d)` becomes `t + d`.
* Go `float64` token/water levels are modelled as exact rationals; the only
  place where IEEE-754 special values matter for the claims (division by a
  zero ceiling in the utilization reads) is modelled by the `GoFloat` type,
  which distinguishes NaN and the infinities.
* Go `int` fields (`limit`, `count`) are modelled as `Int`.
* Each Go method with receiver `*T` becomes a Lean function `T → ℚ → T × α`:
  it takes the pre-state and the value of `time.Now()` observed inside the
  call, and returns the post-state together with the returned value.
  Methods returning nothing return just the post-state.
* The per-instance mutex makes every method body atomic; a (sequential)
  history of calls is a list of operations, each tagged with the `time.Now()`
  value that call observed.  Go's clock is monotonic, so histories are
  constrained to non-decreasing timestamps.
-/

/-- Go `float64` results, keeping NaN and the infinities distinct from
finite values.  Only the operations the source performs on possibly
non-finite values are defined. -/
inductive GoFloat where
  | num (q : ℚ)
  | nan
  | posInf
  | negInf
deriving DecidableEq, Repr

/-- IEEE-754 division of two finite values, as Go's `/` on `float64`:
`0/0` is NaN, `x/0` for `x ≠ 0` is a signed infinity, otherwise exact. -/
def GoFloat.fdiv (x y : ℚ) : GoFloat :=
  if y = 0 then
    if x = 0 then .nan
    else if 0 < x then .posInf
    else .negInf
  else .num (x / y)

/-- Multiplication of a Go `float64` by a positive finite constant
(the source only multiplies utilization ratios by `100`). -/
def GoFloat.mulPos (f : GoFloat) (c : ℚ) : GoFloat :=
  match f with
  | .num q => .num (q * c)
  | .nan => .nan
  | .posInf => .posInf
  | .negInf => .negInf

/-! ## TokenBucket (`rateLimiters/token-bucket.go`) -/

structure TokenBucket where
  capacity : ℚ
  tokens : ℚ
  refillRate : ℚ
  lastRefillTime : ℚ
deriving DecidableEq, Repr

/-- Go `NewTokenBucket`: the bucket starts full, stamped with `time.Now()`. -/
def NewTokenBucket (capacity refillRate : ℚ) (now : ℚ) : TokenBucket :=
  { capacity := capacity
    tokens := capacity
    refillRate := refillRate
    lastRefillTime := now }

/-- Go `TokenBucket.refill`: add `elapsed * refillRate` tokens, clamp to
capacity, advance `lastRefillTime`. -/
def TokenBucket.refill (tb : TokenBucket) (now : ℚ) : TokenBucket :=
  { tb with
    tokens := min tb.capacity (tb.tokens + (now - tb.lastRefillTime) * tb.refillRate)
    lastRefillTime := now }

/-- Go `TokenBucket.AllowRequest`: refill, then consume one token if
`tokens >= 1`. -/
def TokenBucket.AllowRequest (tb : TokenBucket) (now : ℚ) : TokenBucket × Bool :=
  let tb2 := tb.refill now
  if 1 ≤ tb2.tokens then ({ tb2 with tokens := tb2.tokens - 1 }, true)
  else (tb2, false)

/-- Go `TokenBucket.GetTokens`: refill, then report the level. -/
def TokenBucket.GetTokens (tb : TokenBucket) (now : ℚ) : TokenBucket × ℚ :=
  let tb2 := tb.refill now
  (tb2, tb2.tokens)

/-- The public operations of `TokenBucket`. -/
inductive TBOp where
  | allow
  | getTokens
deriving DecidableEq, Repr

/-- State effect of one `TokenBucket` call observing clock value `now`. -/
def TokenBucket.step (tb : TokenBucket) (op : TBOp) (now : ℚ) : TokenBucket :=
  match op with
  | .allow => (tb.AllowRequest now).1
  | .getTokens => (tb.GetTokens now).1

/-- Run a history of timed calls against a `TokenBucket`. -/
def TokenBucket.run (tb : TokenBucket) (ops : List (TBOp × ℚ)) : TokenBucket :=
  ops.foldl (fun s p => s.step p.1 p.2) tb

/-- Timestamps of a history are non-decreasing, starting no earlier than
the given time (Go's monotonic clock). -/
def timesMono {α : Type} : ℚ → List (α × ℚ) → Bool
  | _, [] => true
  | t, p :: rest => decide (t ≤ p.2) && timesMono p.2 rest

/-! ## LeakyBucket (in `rateLimiters/sliding-window-log.go`) -/

structure LeakyBucket where
  capacity : ℚ
  water : ℚ
  leakRate : ℚ
  lastTime : ℚ
deriving DecidableEq, Repr

/-- Go `NewLeakyBucket`: the bucket starts empty, stamped with `time.Now()`. -/
def NewLeakyBucket (capacity leakRate : ℚ) (now : ℚ) : LeakyBucket :=
  { capacity := capacity
    water := 0
    leakRate := leakRate
    lastTime := now }

/-- Go `LeakyBucket.leak`: subtract `elapsed * leakRate`, floor at 0,
advance `lastTime`. -/
def LeakyBucket.leak (lb : LeakyBucket) (now : ℚ) : LeakyBucket :=
  { lb with
    water := max 0 (lb.water - (now - lb.lastTime) * lb.leakRate)
    lastTime := now }

/-- Go `LeakyBucket.AllowRequest`: leak, then add 1 unit of water if
`water < capacity`. -/
def LeakyBucket.AllowRequest (lb : LeakyBucket) (now : ℚ) : LeakyBucket × Bool :=
  let lb2 := lb.leak now
  if lb2.water < lb2.capacity then ({ lb2 with water := lb2.water + 1 }, true)
  else (lb2, false)

/-- Go `LeakyBucket.GetWaterLevel`: leak, then report the level. -/
def LeakyBucket.GetWaterLevel (lb : LeakyBucket) (now : ℚ) : LeakyBucket × ℚ :=
  let lb2 := lb.leak now
  (lb2, lb2.water)

/-- Go `LeakyBucket.GetCapacityUsed`: leak, then report
`(water / capacity) * 100` with Go `float64` division. -/
def LeakyBucket.GetCapacityUsed (lb : LeakyBucket) (now : ℚ) : LeakyBucket × GoFloat :=
  let lb2 := lb.leak now
  (lb2, (GoFloat.fdiv lb2.water lb2.capacity).mulPos 100)

/-- The public operations of `LeakyBucket`. -/
inductive LBOp where
  | allow
  | getWaterLevel
  | getCapacityUsed
deriving DecidableEq, Repr

/-- State effect of one `LeakyBucket` call observing clock value `now`. -/
def LeakyBucket.step (lb : LeakyBucket) (op : LBOp) (now : ℚ) : LeakyBucket :=
  match op with
  | .allow => (lb.AllowRequest now).1
  | .getWaterLevel => (lb.GetWaterLevel now).1
  | .getCapacityUsed => (lb.GetCapacityUsed now).1

/-- Run a history of timed calls against a `LeakyBucket`. -/
def LeakyBucket.run (lb : LeakyBucket) (ops : List (LBOp × ℚ)) : LeakyBucket :=
  ops.foldl (fun s p => s.step p.1 p.2) lb

/-! ## FixedWindowCounter (`rateLimiters/fixed-window-counter.go`) -/

structure FixedWindowCounter where
  limit : ℤ
  windowSize : ℚ
  count : ℤ
  startTime : ℚ
deriving DecidableEq, Repr

/-- Go `NewFixedWindowCounter`: zero count, window starting at `time.Now()`. -/
def NewFixedWindowCounter (limit : ℤ) (windowSize : ℚ) (now : ℚ) : FixedWindowCounter :=
  { limit := limit
    windowSize := windowSize
    count := 0
    startTime := now }

/-- Go `FixedWindowCounter.AllowRequest`: reset the window if it has elapsed
(`now - startTime >= windowSize`), then admit iff `count < limit`. -/
def FixedWindowCounter.AllowRequest (fwc : FixedWindowCounter) (now : ℚ) :
    FixedWindowCounter × Bool :=
  let fwc2 :=
    if fwc.windowSize ≤ now - fwc.startTime then
      { fwc with startTime := now, count := 0 }
    else fwc
  if fwc2.count < fwc2.limit then ({ fwc2 with count := fwc2.count + 1 }, true)
  else (fwc2, false)

/-- Go `FixedWindowCounter.GetCurrentCount`: report 0 if the window has
expired, else the stored count; mutates nothing. -/
def FixedWindowCounter.GetCurrentCount (fwc : FixedWindowCounter) (now : ℚ) :
    FixedWindowCounter × ℤ :=
  if fwc.windowSize ≤ now - fwc.startTime then (fwc, 0)
  else (fwc, fwc.count)

/-- Go `FixedWindowCounter.GetTimeUntilReset`: report 0 if the window has
expired, else the remaining duration; mutates nothing. -/
def FixedWindowCounter.GetTimeUntilReset (fwc : FixedWindowCounter) (now : ℚ) :
    FixedWindowCounter × ℚ :=
  if fwc.windowSize ≤ now - fwc.startTime then (fwc, 0)
  else (fwc, fwc.windowSize - (now - fwc.startTime))

/-- Go `FixedWindowCounter.GetWindowInfo`: report
`(count, limit, timeUntilReset, utilization)`; utilization is
`float64(count) / float64(limit) * 100`; mutates nothing. -/
def FixedWindowCounter.GetWindowInfo (fwc : FixedWindowCounter) (now : ℚ) :
    FixedWindowCounter × (ℤ × ℤ × ℚ × GoFloat) :=
  if fwc.windowSize ≤ now - fwc.startTime then
    (fwc, (0, fwc.limit, 0, .num 0))
  else
    (fwc, (fwc.count, fwc.limit, fwc.windowSize - (now - fwc.startTime),
      (GoFloat.fdiv (fwc.count : ℚ) (fwc.limit : ℚ)).mulPos 100))

/-- Issue a sequence of `AllowRequest` calls at the given clock values,
collecting the boolean decisions in order. -/
def FixedWindowCounter.allowSeq (fwc : FixedWindowCounter) :
    List ℚ → List Bool × FixedWindowCounter
  | [] => ([], fwc)
  | t :: ts =>
    let r := fwc.AllowRequest t
    let rest := r.1.allowSeq ts
    (r.2 :: rest.1, rest.2)

/-! ## SlidingWindowLog (`rateLimiters/sliding-window-log.go`) -/

structure SlidingWindowLog where
  limit : ℤ
  windowSize : ℚ
  requests : List ℚ
deriving DecidableEq, Repr

/-- Go `NewSlidingWindowLog`: empty request log. -/
def NewSlidingWindowLog (limit : ℤ) (windowSize : ℚ) : SlidingWindowLog :=
  { limit := limit
    windowSize := windowSize
    requests := [] }

/-- The loop body of `cleanupOldRequests`: pop the front while its
timestamp is not strictly after `cutoff = now - windowSize`, stopping at
the first timestamp strictly within the window. -/
def cleanupLoop (cutoff : ℚ) : List ℚ → List ℚ
  | [] => []
  | t :: rest => if cutoff < t then t :: rest else cleanupLoop cutoff rest

/-- Go `SlidingWindowLog.cleanupOldRequests`: drop expired front entries. -/
def SlidingWindowLog.cleanupOldRequests (swl : SlidingWindowLog) (now : ℚ) :
    SlidingWindowLog :=
  { swl with requests := cleanupLoop (now - swl.windowSize) swl.requests }

/-- Go `SlidingWindowLog.AllowRequest`: clean up, then admit and append `now`
iff the log length is below the limit. -/
def SlidingWindowLog.AllowRequest (swl : SlidingWindowLog) (now : ℚ) :
    SlidingWindowLog × Bool :=
  let swl2 := swl.cleanupOldRequests now
  if (swl2.requests.length : ℤ) < swl2.limit then
    ({ swl2 with requests := swl2.requests ++ [now] }, true)
  else (swl2, false)

/-- Go `SlidingWindowLog.GetCurrentCount`: clean up, then report the length. -/
def SlidingWindowLog.GetCurrentCount (swl : SlidingWindowLog) (now : ℚ) :
    SlidingWindowLog × ℤ :=
  let swl2 := swl.cleanupOldRequests now
  (swl2, (swl2.requests.length : ℤ))

/-- Go `SlidingWindowLog.GetOldestRequestAge`: clean up, then report the age
of the front entry (0 when empty). -/
def SlidingWindowLog.GetOldestRequestAge (swl : SlidingWindowLog) (now : ℚ) :
    SlidingWindowLog × ℚ :=
  let swl2 := swl.cleanupOldRequests now
  match swl2.requests with
  | [] => (swl2, 0)
  | oldest :: _ => (swl2, now - oldest)

/-- Go `SlidingWindowLog.GetTimeUntilSlotAvailable`: clean up; 0 when under
the limit, else the time until the front entry leaves the window, floored
at 0.  `none` models the path where the Go code dereferences the `Front()`
of an empty list (a nil-pointer panic, reachable only when `limit ≤ 0`). -/
def SlidingWindowLog.GetTimeUntilSlotAvailable (swl : SlidingWindowLog) (now : ℚ) :
    SlidingWindowLog × Option ℚ :=
  let swl2 := swl.cleanupOldRequests now
  if (swl2.requests.length : ℤ) < swl2.limit then (swl2, some 0)
  else
    match swl2.requests with
    | [] => (swl2, none)
    | oldest :: _ =>
      if now < oldest + swl2.windowSize then (swl2, some (oldest + swl2.windowSize - now))
      else (swl2, some 0)

/-- Go `SlidingWindowLog.GetWindowInfo`: clean up, then report
`(count, limit, utilization, oldestAge)` with Go `float64` division for
the utilization. -/
def SlidingWindowLog.GetWindowInfo (swl : SlidingWindowLog) (now : ℚ) :
    SlidingWindowLog × (ℤ × ℤ × GoFloat × ℚ) :=
  let swl2 := swl.cleanupOldRequests now
  let count : ℤ := (swl2.requests.length : ℤ)
  let util := (GoFloat.fdiv (count : ℚ) (swl2.limit : ℚ)).mulPos 100
  match swl2.requests with
  | [] => (swl2, (count, swl2.limit, util, 0))
  | oldest :: _ => (swl2, (count, swl2.limit, util, now - oldest))

/-- Go `SlidingWindowLog.GetRequestTimestamps`: clean up, then report every
retained timestamp in order. -/
def SlidingWindowLog.GetRequestTimestamps (swl : SlidingWindowLog) (now : ℚ) :
    SlidingWindowLog × List ℚ :=
  let swl2 := swl.cleanupOldRequests now
  (swl2, swl2.requests)

/-- The public operations of `SlidingWindowLog`. -/
inductive SWLOp where
  | allow
  | getCurrentCount
  | getOldestRequestAge
  | getTimeUntilSlotAvailable
  | getWindowInfo
  | getRequestTimestamps
deriving DecidableEq, Repr

/-- State effect of one `SlidingWindowLog` call observing clock `now`. -/
def SlidingWindowLog.step (swl : SlidingWindowLog) (op : SWLOp) (now : ℚ) :
    SlidingWindowLog :=
  match op with
  | .allow => (swl.AllowRequest now).1
  | .getCurrentCount => (swl.GetCurrentCount now).1
  | .getOldestRequestAge => (swl.GetOldestRequestAge now).1
  | .getTimeUntilSlotAvailable => (swl.GetTimeUntilSlotAvailable now).1
  | .getWindowInfo => (swl.GetWindowInfo now).1
  | .getRequestTimestamps => (swl.GetRequestTimestamps now).1

/-- Run a history of timed calls against a `SlidingWindowLog`. -/
def SlidingWindowLog.run (swl : SlidingWindowLog) (ops : List (SWLOp × ℚ)) :
    SlidingWindowLog :=
  ops.foldl (fun s p => s.step p.1 p.2) swl

/-! ## Helper lemmas -/

/-- Refilling at a later clock value keeps the level between 0 and capacity
and stamps the clock. -/
theorem TokenBucket.refill_bounds (tb : TokenBucket) (now : ℚ)
    (hc : 0 ≤ tb.capacity) (hr : 0 ≤ tb.refillRate)
    (h0 : 0 ≤ tb.tokens) (ht : tb.lastRefillTime ≤ now) :
    0 ≤ (tb.refill now).tokens ∧ (tb.refill now).tokens ≤ tb.capacity := by
  unfold TokenBucket.refill
  refine ⟨le_min hc ?_, min_le_left _ _⟩
  have : 0 ≤ (now - tb.lastRefillTime) * tb.refillRate :=
    mul_nonneg (by linarith) hr
  linarith

/-- Invariant carried along any `TokenBucket` history. -/
def TBgood (tb : TokenBucket) : Prop :=
  0 ≤ tb.capacity ∧ 0 ≤ tb.refillRate ∧ 0 ≤ tb.tokens ∧ tb.tokens ≤ tb.capacity

/-- One `TokenBucket` call at a later clock value preserves the invariant
and stamps the clock. -/
theorem TokenBucket.step_good (tb : TokenBucket) (op : TBOp) (now : ℚ)
    (h : TBgood tb) (ht : tb.lastRefillTime ≤ now) :
    TBgood (tb.step op now) ∧ (tb.step op now).lastRefillTime = now := by
  obtain ⟨hc, hr, h0, hcap⟩ := h
  have hb := tb.refill_bounds now hc hr h0 ht
  cases op with
  | allow =>
    unfold TokenBucket.step TokenBucket.AllowRequest
    by_cases h1 : 1 ≤ (tb.refill now).tokens
    · simp only [h1, if_pos]
      refine ⟨⟨hc, hr, ?_, ?_⟩, rfl⟩
      · show (0 : ℚ) ≤ (tb.refill now).tokens - 1
        linarith
      · show (tb.refill now).tokens - 1 ≤ tb.capacity
        have := hb.2
        linarith
    · simp only [h1, if_neg, not_false_iff]
      exact ⟨⟨hc, hr, hb.1, hb.2⟩, rfl⟩
  | getTokens =>
    unfold TokenBucket.step TokenBucket.GetTokens
    exact ⟨⟨hc, hr, hb.1, hb.2⟩, rfl⟩

/-- The invariant holds after running any monotone-clock history. -/
theorem TokenBucket.run_good (ops : List (TBOp × ℚ)) (tb : TokenBucket)
    (h : TBgood tb) (ht : timesMono tb.lastRefillTime ops = true) :
    TBgood (tb.run ops) := by
  induction ops generalizing tb with
  | nil => exact h
  | cons p rest ih =>
    simp only [timesMono, Bool.and_eq_true, decide_eq_true_eq] at ht
    have hs := tb.step_good p.1 p.2 h ht.1
    have ht' : timesMono (tb.step p.1 p.2).lastRefillTime rest = true := by
      rw [hs.2]; exact ht.2
    exact ih (tb.step p.1 p.2) hs.1 ht'

/-- Invariant carried along any `LeakyBucket` history. -/
def LBgood (lb : LeakyBucket) : Prop :=
  0 ≤ lb.capacity ∧ 0 ≤ lb.leakRate ∧ 0 ≤ lb.water ∧ lb.water < lb.capacity + 1

/-- Leaking at a later clock value can only lower a non-negative level,
never below 0, and stamps the clock. -/
theorem LeakyBucket.leak_bounds (lb : LeakyBucket) (now : ℚ)
    (hr : 0 ≤ lb.leakRate) (h0 : 0 ≤ lb.water) (ht : lb.lastTime ≤ now) :
    0 ≤ (lb.leak now).water ∧ (lb.leak now).water ≤ lb.water := by
  unfold LeakyBucket.leak
  refine ⟨le_max_left _ _, ?_⟩
  have : 0 ≤ (now - lb.lastTime) * lb.leakRate := mul_nonneg (by linarith) hr
  show max 0 (lb.water - (now - lb.lastTime) * lb.leakRate) ≤ lb.water
  exact max_le h0 (by linarith)

/-- One `LeakyBucket` call at a later clock value preserves the invariant
and stamps the clock. -/
theorem LeakyBucket.step_inv (lb : LeakyBucket) (op : LBOp) (now : ℚ)
    (h : LBgood lb) (ht : lb.lastTime ≤ now) :
    LBgood (lb.step op now) ∧ (lb.step op now).lastTime = now := by
  obtain ⟨hc, hr, h0, hcap⟩ := h
  have hb := lb.leak_bounds now hr h0 ht
  cases op with
  | allow =>
    unfold LeakyBucket.step LeakyBucket.AllowRequest
    by_cases h1 : (lb.leak now).water < (lb.leak now).capacity
    · simp only [h1, if_pos]
      refine ⟨⟨hc, hr, ?_, ?_⟩, rfl⟩
      · show (0 : ℚ) ≤ (lb.leak now).water + 1
        linarith [hb.1]
      · show (lb.leak now).water + 1 < lb.capacity + 1
        have h1' : (lb.leak now).water < lb.capacity := h1
        linarith
    · simp only [h1, if_neg, not_false_iff]
      exact ⟨⟨hc, hr, hb.1, by show (lb.leak now).water < lb.capacity + 1; linarith [hb.2]⟩, rfl⟩
  | getWaterLevel =>
    unfold LeakyBucket.step LeakyBucket.GetWaterLevel
    exact ⟨⟨hc, hr, hb.1, by show (lb.leak now).water < lb.capacity + 1; linarith [hb.2]⟩, rfl⟩
  | getCapacityUsed =>
    unfold LeakyBucket.step LeakyBucket.GetCapacityUsed
    exact ⟨⟨hc, hr, hb.1, by show (lb.leak now).water < lb.capacity + 1; linarith [hb.2]⟩, rfl⟩

/-- The invariant holds after running any monotone-clock history. -/
theorem LeakyBucket.run_inv (ops : List (LBOp × ℚ)) (lb : LeakyBucket)
    (h : LBgood lb) (ht : timesMono lb.lastTime ops = true) :
    LBgood (lb.run ops) := by
  induction ops generalizing lb with
  | nil => exact h
  | cons p rest ih =>
    simp only [timesMono, Bool.and_eq_true, decide_eq_true_eq] at ht
    have hs := lb.step_inv p.1 p.2 h ht.1
    have ht' : timesMono (lb.step p.1 p.2).lastTime rest = true := by
      rw [hs.2]; exact ht.2
    exact ih (lb.step p.1 p.2) hs.1 ht'

/-- The cleanup loop never lengthens the list. -/
theorem cleanupLoop_length_le (cutoff : ℚ) (l : List ℚ) :
    (cleanupLoop cutoff l).length ≤ l.length := by
  induction l with
  | nil => simp [cleanupLoop]
  | cons t rest ih =>
    unfold cleanupLoop
    by_cases h : cutoff < t
    · simp [h]
    · simp only [h, if_neg, not_false_iff]
      exact le_trans ih (by simp)

/-- Cleaning up only rewrites the request log. -/
theorem SlidingWindowLog.cleanup_limit (swl : SlidingWindowLog) (now : ℚ) :
    (swl.cleanupOldRequests now).limit = swl.limit := rfl

/-- The post-state of `GetCurrentCount` is the cleaned-up state. -/
theorem SlidingWindowLog.GetCurrentCount_fst (swl : SlidingWindowLog) (now : ℚ) :
    (swl.GetCurrentCount now).1 = swl.cleanupOldRequests now := rfl

/-- The post-state of `GetRequestTimestamps` is the cleaned-up state. -/
theorem SlidingWindowLog.GetRequestTimestamps_fst (swl : SlidingWindowLog) (now : ℚ) :
    (swl.GetRequestTimestamps now).1 = swl.cleanupOldRequests now := rfl

/-- The post-state of `GetOldestRequestAge` is the cleaned-up state. -/
theorem SlidingWindowLog.GetOldestRequestAge_fst (swl : SlidingWindowLog) (now : ℚ) :
    (swl.GetOldestRequestAge now).1 = swl.cleanupOldRequests now := by
  unfold SlidingWindowLog.GetOldestRequestAge
  cases h : (swl.cleanupOldRequests now).requests <;> simp [h]

/-- The post-state of `GetTimeUntilSlotAvailable` is the cleaned-up state. -/
theorem SlidingWindowLog.GetTimeUntilSlotAvailable_fst (swl : SlidingWindowLog) (now : ℚ) :
    (swl.GetTimeUntilSlotAvailable now).1 = swl.cleanupOldRequests now := by
  unfold SlidingWindowLog.GetTimeUntilSlotAvailable
  cases h : (swl.cleanupOldRequests now).requests with
  | nil =>
    simp only [h]
    split <;> rfl
  | cons t rest =>
    simp only [h]
    split
    · rfl
    · split <;> rfl

/-- The post-state of `GetWindowInfo` is the cleaned-up state. -/
theorem SlidingWindowLog.GetWindowInfo_fst (swl : SlidingWindowLog) (now : ℚ) :
    (swl.GetWindowInfo now).1 = swl.cleanupOldRequests now := by
  unfold SlidingWindowLog.GetWindowInfo
  cases h : (swl.cleanupOldRequests now).requests <;> simp [h]

/-- One `SlidingWindowLog` call keeps the log length at or below the
limit, and never changes the limit. -/
theorem SlidingWindowLog.step_len (swl : SlidingWindowLog) (op : SWLOp) (now : ℚ)
    (h : (swl.requests.length : ℤ) ≤ swl.limit) :
    ((swl.step op now).requests.length : ℤ) ≤ (swl.step op now).limit ∧
      (swl.step op now).limit = swl.limit := by
  have hclean : ((swl.cleanupOldRequests now).requests.length : ℤ) ≤
      (swl.cleanupOldRequests now).limit := by
    rw [swl.cleanup_limit now]
    refine le_trans ?_ h
    exact_mod_cast cleanupLoop_length_le (now - swl.windowSize) swl.requests
  cases op with
  | allow =>
    unfold SlidingWindowLog.step SlidingWindowLog.AllowRequest
    by_cases h1 : ((swl.cleanupOldRequests now).requests.length : ℤ) <
        (swl.cleanupOldRequests now).limit
    · simp only [h1, if_pos]
      refine ⟨?_, rfl⟩
      show ((((swl.cleanupOldRequests now).requests ++ [now]).length : ℕ) : ℤ) ≤
        (swl.cleanupOldRequests now).limit
      simp only [List.length_append, List.length_cons, List.length_nil]
      push_cast
      push_cast at h1
      omega
    · simp only [h1, if_neg, not_false_iff]
      exact ⟨hclean, rfl⟩
  | getCurrentCount =>
    unfold SlidingWindowLog.step
    rw [swl.GetCurrentCount_fst now]
    exact ⟨hclean, rfl⟩
  | getOldestRequestAge =>
    unfold SlidingWindowLog.step
    rw [swl.GetOldestRequestAge_fst now]
    exact ⟨hclean, rfl⟩
  | getTimeUntilSlotAvailable =>
    unfold SlidingWindowLog.step
    rw [swl.GetTimeUntilSlotAvailable_fst now]
    exact ⟨hclean, rfl⟩
  | getWindowInfo =>
    unfold SlidingWindowLog.step
    rw [swl.GetWindowInfo_fst now]
    exact ⟨hclean, rfl⟩
  | getRequestTimestamps =>
    unfold SlidingWindowLog.step
    rw [swl.GetRequestTimestamps_fst now]
    exact ⟨hclean, rfl⟩

/-- The log length stays at or below the limit along any history. -/
theorem SlidingWindowLog.run_len (ops : List (SWLOp × ℚ)) (swl : SlidingWindowLog)
    (h : (swl.requests.length : ℤ) ≤ swl.limit) :
    ((swl.run ops).requests.length : ℤ) ≤ (swl.run ops).limit := by
  induction ops generalizing swl with
  | nil => exact h
  | cons p rest ih =>
    have hs := swl.step_len p.1 p.2 h
    exact ih (swl.step p.1 p.2) hs.1

/-! ## Claims -/

/-- C1: For every TokenBucket with capacity ≥ 0 and refillRate ≥ 0, each
`AllowRequest` call first refills (tokens becomes
`min(capacity, tokens + elapsed*refillRate)`, `lastRefillTime` becomes
`now`) and then returns true and decreases tokens by exactly 1 if
`tokens ≥ 1` after the refill, else returns false and leaves the refilled
tokens unchanged. -/
theorem C1_tokenBucket_allowRequest (tb : TokenBucket) (now : ℚ)
    (hcap : 0 ≤ tb.capacity) (hrate : 0 ≤ tb.refillRate) :
    (1 ≤ min tb.capacity (tb.tokens + (now - tb.lastRefillTime) * tb.refillRate) →
      tb.AllowRequest now =
        ({ capacity := tb.capacity
           tokens := min tb.capacity (tb.tokens + (now - tb.lastRefillTime) * tb.refillRate) - 1
           refillRate := tb.refillRate
           lastRefillTime := now }, true)) ∧
    (min tb.capacity (tb.tokens + (now - tb.lastRefillTime) * tb.refillRate) < 1 →
      tb.AllowRequest now =
        ({ capacity := tb.capacity
           tokens := min tb.capacity (tb.tokens + (now - tb.lastRefillTime) * tb.refillRate)
           refillRate := tb.refillRate
           lastRefillTime := now }, false)) := by
  constructor
  · intro h
    simp [TokenBucket.AllowRequest, TokenBucket.refill, h]
  · intro h
    simp [TokenBucket.AllowRequest, TokenBucket.refill, not_le.mpr h]

/-- Witness for C1: a full bucket of capacity 5 admits a request and drops
to 4 tokens. -/
theorem C1_tokenBucket_allowRequest_witness :
    TokenBucket.AllowRequest ⟨5, 5, 1, 0⟩ 0 = (⟨5, 4, 1, 0⟩, true) := by
  have h := (C1_tokenBucket_allowRequest ⟨5, 5, 1, 0⟩ 0 (by norm_num) (by norm_num)).1
    (by norm_num)
  rw [h]
  norm_num

/-- C2: Every LeakyBucket starts with `water = 0`, and each `AllowRequest`
call first leaks (water becomes `max(0, water - elapsed*leakRate)`,
`lastTime` becomes `now`) and then returns true and adds exactly 1 unit of
water iff the leaked level is strictly below capacity, else returns false
and adds nothing. -/
theorem C2_leakyBucket_allowRequest (lb : LeakyBucket) (c r t0 now : ℚ) :
    (NewLeakyBucket c r t0).water = 0 ∧
    (max 0 (lb.water - (now - lb.lastTime) * lb.leakRate) < lb.capacity →
      lb.AllowRequest now =
        ({ capacity := lb.capacity
           water := max 0 (lb.water - (now - lb.lastTime) * lb.leakRate) + 1
           leakRate := lb.leakRate
           lastTime := now }, true)) ∧
    (¬ max 0 (lb.water - (now - lb.lastTime) * lb.leakRate) < lb.capacity →
      lb.AllowRequest now =
        ({ capacity := lb.capacity
           water := max 0 (lb.water - (now - lb.lastTime) * lb.leakRate)
           leakRate := lb.leakRate
           lastTime := now }, false)) := by
  refine ⟨rfl, ?_, ?_⟩
  · intro h
    simp [LeakyBucket.AllowRequest, LeakyBucket.leak, h]
  · intro h
    simp [LeakyBucket.AllowRequest, LeakyBucket.leak, h]

/-- Witness for C2: an empty bucket of capacity 5 admits a request and
rises to water level 1. -/
theorem C2_leakyBucket_allowRequest_witness :
    LeakyBucket.AllowRequest ⟨5, 0, 1, 0⟩ 0 = (⟨5, 1, 1, 0⟩, true) := by
  have h := (C2_leakyBucket_allowRequest ⟨5, 0, 1, 0⟩ 5 1 0 0).2.1 (by norm_num)
  rw [h]
  norm_num

/-- C3: For every LeakyBucket with capacity ≥ 0 and leakRate ≥ 0, after
every (monotone-clock) history the water level satisfies `0 ≤ water` and
`water < capacity + 1`; the level `water = capacity` is reachable. -/
theorem C3_leakyBucket_water_bounds (c r t0 : ℚ) (ops : List (LBOp × ℚ))
    (hc : 0 ≤ c) (hr : 0 ≤ r) (hmono : timesMono t0 ops = true) :
    (0 ≤ ((NewLeakyBucket c r t0).run ops).water ∧
      ((NewLeakyBucket c r t0).run ops).water <
        ((NewLeakyBucket c r t0).run ops).capacity + 1) ∧
    ∃ (c2 r2 t2 : ℚ) (ops2 : List (LBOp × ℚ)), 0 ≤ c2 ∧ 0 ≤ r2 ∧
      timesMono t2 ops2 = true ∧
      ((NewLeakyBucket c2 r2 t2).run ops2).water =
        ((NewLeakyBucket c2 r2 t2).run ops2).capacity := by
  constructor
  · have hg : LBgood (NewLeakyBucket c r t0) := ⟨hc, hr, le_refl 0, by
      show (0 : ℚ) < c + 1
      linarith⟩
    have := LeakyBucket.run_inv ops (NewLeakyBucket c r t0) hg hmono
    exact ⟨this.2.2.1, this.2.2.2⟩
  · refine ⟨1, 0, 0, [(LBOp.allow, 0)], by norm_num, le_refl 0, ?_, ?_⟩
    · show (decide ((0:ℚ) ≤ 0) && timesMono 0 []) = true
      simp [timesMono]
    · show ((NewLeakyBucket 1 0 0).step LBOp.allow 0).water =
        ((NewLeakyBucket 1 0 0).step LBOp.allow 0).capacity
      norm_num [NewLeakyBucket, LeakyBucket.step, LeakyBucket.AllowRequest, LeakyBucket.leak]

/-- Witness for C3: one admission then a leaking read, against a bucket of
capacity 1 and leak rate 1. -/
theorem C3_leakyBucket_water_bounds_witness :
    0 ≤ ((NewLeakyBucket 1 1 0).run [(LBOp.allow, 0), (LBOp.getWaterLevel, 2)]).water ∧
      ((NewLeakyBucket 1 1 0).run [(LBOp.allow, 0), (LBOp.getWaterLevel, 2)]).water <
        ((NewLeakyBucket 1 1 0).run [(LBOp.allow, 0), (LBOp.getWaterLevel, 2)]).capacity + 1 :=
  (C3_leakyBucket_water_bounds 1 1 0 [(LBOp.allow, 0), (LBOp.getWaterLevel, 2)]
    (by norm_num) (by norm_num) (by decide)).1

/-- The cleanup loop computes `dropWhile (· ≤ cutoff)`. -/
theorem cleanupLoop_eq_dropWhile (cutoff : ℚ) (l : List ℚ) :
    cleanupLoop cutoff l = l.dropWhile (fun t => decide (t ≤ cutoff)) := by
  induction l with
  | nil => rfl
  | cons t rest ih =>
    unfold cleanupLoop
    by_cases h : cutoff < t
    · rw [if_pos h, List.dropWhile_cons]
      simp [not_le.mpr h]
    · rw [if_neg h, List.dropWhile_cons, ← ih]
      simp [not_lt.mp h]

/-- On a sorted list, every entry surviving the cleanup loop is strictly
inside the window. -/
theorem cleanupLoop_mem_gt (cutoff : ℚ) (l : List ℚ)
    (hs : List.Pairwise (· ≤ ·) l) :
    ∀ t ∈ cleanupLoop cutoff l, cutoff < t := by
  induction l with
  | nil => simp [cleanupLoop]
  | cons a rest ih =>
    unfold cleanupLoop
    by_cases h : cutoff < a
    · rw [if_pos h]
      intro t ht
      rcases List.mem_cons.mp ht with rfl | ht'
      · exact h
      · exact lt_of_lt_of_le h ((List.pairwise_cons.mp hs).1 t ht')
    · rw [if_neg h]
      exact ih (List.pairwise_cons.mp hs).2

/-- No `SlidingWindowLog` call changes the limit. -/
theorem SlidingWindowLog.step_limit (swl : SlidingWindowLog) (op : SWLOp) (now : ℚ) :
    (swl.step op now).limit = swl.limit := by
  cases op with
  | allow =>
    show ((swl.AllowRequest now).1).limit = swl.limit
    simp only [SlidingWindowLog.AllowRequest]
    split <;> rfl
  | getCurrentCount =>
    show ((swl.GetCurrentCount now).1).limit = swl.limit
    rw [swl.GetCurrentCount_fst now]; rfl
  | getOldestRequestAge =>
    show ((swl.GetOldestRequestAge now).1).limit = swl.limit
    rw [swl.GetOldestRequestAge_fst now]; rfl
  | getTimeUntilSlotAvailable =>
    show ((swl.GetTimeUntilSlotAvailable now).1).limit = swl.limit
    rw [swl.GetTimeUntilSlotAvailable_fst now]; rfl
  | getWindowInfo =>
    show ((swl.GetWindowInfo now).1).limit = swl.limit
    rw [swl.GetWindowInfo_fst now]; rfl
  | getRequestTimestamps =>
    show ((swl.GetRequestTimestamps now).1).limit = swl.limit
    rw [swl.GetRequestTimestamps_fst now]; rfl

/-- No history changes the limit. -/
theorem SlidingWindowLog.run_limit (ops : List (SWLOp × ℚ)) (swl : SlidingWindowLog) :
    (swl.run ops).limit = swl.limit := by
  induction ops generalizing swl with
  | nil => rfl
  | cons p rest ih =>
    rw [show swl.run (p :: rest) = (swl.step p.1 p.2).run rest from rfl, ih,
      swl.step_limit p.1 p.2]

/-- C4: Each `FixedWindowCounter.AllowRequest` call first persists a window
reset when `now - startTime ≥ windowSize` (`startTime := now`,
`count := 0`), then allows with `count` incremented iff `count < limit`
after any reset, else denies with `count` unchanged; consequently with
`limit = 5` five immediate requests in a fresh window succeed and the
sixth fails. -/
theorem C4_fixedWindowCounter_allowRequest (ws t0 : ℚ) (hw : 0 < ws) :
    (∀ (fwc : FixedWindowCounter) (now : ℚ),
      (fwc.windowSize ≤ now - fwc.startTime →
        fwc.AllowRequest now =
          (if (0 : ℤ) < fwc.limit then
            ({ limit := fwc.limit, windowSize := fwc.windowSize,
               count := 1, startTime := now }, true)
          else
            ({ limit := fwc.limit, windowSize := fwc.windowSize,
               count := 0, startTime := now }, false))) ∧
      (¬ fwc.windowSize ≤ now - fwc.startTime →
        fwc.AllowRequest now =
          (if fwc.count < fwc.limit then
            ({ fwc with count := fwc.count + 1 }, true)
          else (fwc, false)))) ∧
    ((NewFixedWindowCounter 5 ws t0).allowSeq [t0, t0, t0, t0, t0, t0]).1 =
      [true, true, true, true, true, false] := by
  constructor
  · intro fwc now
    constructor
    · intro h
      by_cases h2 : (0 : ℤ) < fwc.limit
      · simp [FixedWindowCounter.AllowRequest, h, h2]
      · simp [FixedWindowCounter.AllowRequest, h, h2]
    · intro h
      by_cases h2 : fwc.count < fwc.limit
      · simp [FixedWindowCounter.AllowRequest, h, h2]
      · simp [FixedWindowCounter.AllowRequest, h, h2]
  · have hns : ¬ ws ≤ 0 := not_le.mpr hw
    norm_num [FixedWindowCounter.allowSeq, FixedWindowCounter.AllowRequest,
      NewFixedWindowCounter, hns]

/-- Witness for C4: a fresh counter with limit 5 and a 10-second window
admits five immediate requests and denies the sixth. -/
theorem C4_fixedWindowCounter_allowRequest_witness :
    ((NewFixedWindowCounter 5 10 0).allowSeq [0, 0, 0, 0, 0, 0]).1 =
      [true, true, true, true, true, false] :=
  (C4_fixedWindowCounter_allowRequest 10 0 (by norm_num)).2

/-- C5: when the window has expired, `GetCurrentCount` and
`GetTimeUntilReset` report 0 without mutating any field, while
`AllowRequest` persists the reset (`startTime := now`, count zeroed and
then incremented iff `0 < limit`). -/
theorem C5_fixedWindowCounter_readonly (fwc : FixedWindowCounter) (now : ℚ)
    (h : fwc.windowSize ≤ now - fwc.startTime) :
    (fwc.GetCurrentCount now).1 = fwc ∧
    (fwc.GetCurrentCount now).2 = 0 ∧
    (fwc.GetTimeUntilReset now).1 = fwc ∧
    (fwc.GetTimeUntilReset now).2 = 0 ∧
    (fwc.AllowRequest now).1.startTime = now ∧
    (fwc.AllowRequest now).1.count = (if (0 : ℤ) < fwc.limit then 1 else 0) := by
  refine ⟨?_, ?_, ?_, ?_, ?_, ?_⟩
  · simp [FixedWindowCounter.GetCurrentCount, h]
  · simp [FixedWindowCounter.GetCurrentCount, h]
  · simp [FixedWindowCounter.GetTimeUntilReset, h]
  · simp [FixedWindowCounter.GetTimeUntilReset, h]
  · by_cases h2 : (0 : ℤ) < fwc.limit
    · simp [FixedWindowCounter.AllowRequest, h, h2]
    · simp [FixedWindowCounter.AllowRequest, h, h2]
  · by_cases h2 : (0 : ℤ) < fwc.limit
    · simp [FixedWindowCounter.AllowRequest, h, h2]
    · simp [FixedWindowCounter.AllowRequest, h, h2]

/-- Witness for C5: an expired window with 3 stored requests reads as 0
count and 0 remaining time without being mutated. -/
theorem C5_fixedWindowCounter_readonly_witness :
    FixedWindowCounter.GetCurrentCount ⟨5, 10, 3, 0⟩ 10 = (⟨5, 10, 3, 0⟩, 0) ∧
    FixedWindowCounter.GetTimeUntilReset ⟨5, 10, 3, 0⟩ 10 = (⟨5, 10, 3, 0⟩, 0) := by
  have h := C5_fixedWindowCounter_readonly ⟨5, 10, 3, 0⟩ 10 (by norm_num)
  refine ⟨?_, ?_⟩
  · have h1 := h.1
    have h2 := h.2.1
    rw [Prod.ext_iff]
    exact ⟨h1, h2⟩
  · have h3 := h.2.2.1
    have h4 := h.2.2.2.1
    rw [Prod.ext_iff]
    exact ⟨h3, h4⟩

/-- C6: `cleanupOldRequests` removes timestamps from the front exactly
while `timestamp ≤ now - windowSize` (it is `dropWhile`, so it stops at
the first in-window entry and touches nothing behind it), and on a sorted
log every retained timestamp satisfies `timestamp > now - windowSize`. -/
theorem C6_slidingWindowLog_cleanup (swl : SlidingWindowLog) (now : ℚ)
    (hs : List.Chain' (· ≤ ·) swl.requests) :
    (swl.cleanupOldRequests now).requests =
      swl.requests.dropWhile (fun t => decide (t ≤ now - swl.windowSize)) ∧
    ∀ t ∈ (swl.cleanupOldRequests now).requests, now - swl.windowSize < t := by
  constructor
  · exact cleanupLoop_eq_dropWhile (now - swl.windowSize) swl.requests
  · exact cleanupLoop_mem_gt (now - swl.windowSize) swl.requests
      (List.chain'_iff_pairwise.mp hs)

/-- Witness for C6: cleaning the sorted log `[1, 5, 12]` at `now = 12`
with a 10-second window drops exactly the leading expired entry. -/
theorem C6_slidingWindowLog_cleanup_witness :
    (SlidingWindowLog.cleanupOldRequests ⟨5, 10, [1, 5, 12]⟩ 12).requests =
      List.dropWhile (fun t => decide (t ≤ (12 : ℚ) - 10)) [1, 5, 12] ∧
    ∀ t ∈ (SlidingWindowLog.cleanupOldRequests ⟨5, 10, [1, 5, 12]⟩ 12).requests,
      (12 : ℚ) - 10 < t :=
  C6_slidingWindowLog_cleanup ⟨5, 10, [1, 5, 12]⟩ 12
    (by norm_num [List.chain'_cons, List.chain'_singleton])

/-- C7 fails as stated at limit `L = -1`: the empty log already has more
entries than the limit allows, before and after an `AllowRequest`. -/
theorem C7_slidingWindowLog_size_counterexample :
    ¬ ((((NewSlidingWindowLog (-1) 10).run [(SWLOp.allow, 0)]).requests.length : ℤ) ≤
        ((NewSlidingWindowLog (-1) 10).run [(SWLOp.allow, 0)]).limit) := by
  decide

/-- C7 (amended with `0 ≤ L`): for every SlidingWindowLog with limit
`L ≥ 0`, after any history the stored-timestamp count is ≤ L;
`AllowRequest` appends `now` and returns true exactly when the cleaned-up
log is strictly below the limit, else returns false without appending. -/
theorem C7_slidingWindowLog_size (L : ℤ) (ws : ℚ) (ops : List (SWLOp × ℚ))
    (hL : 0 ≤ L) :
    (((NewSlidingWindowLog L ws).run ops).requests.length : ℤ) ≤ L ∧
    (∀ (swl : SlidingWindowLog) (now : ℚ),
      (((swl.cleanupOldRequests now).requests.length : ℤ) < swl.limit →
        swl.AllowRequest now =
          ({ limit := swl.limit, windowSize := swl.windowSize,
             requests := (swl.cleanupOldRequests now).requests ++ [now] }, true)) ∧
      (¬ ((swl.cleanupOldRequests now).requests.length : ℤ) < swl.limit →
        swl.AllowRequest now = (swl.cleanupOldRequests now, false))) := by
  constructor
  · have h0 : (((NewSlidingWindowLog L ws).requests.length : ℕ) : ℤ) ≤
        (NewSlidingWindowLog L ws).limit := by
      show ((([] : List ℚ).length : ℕ) : ℤ) ≤ L
      simpa using hL
    have := SlidingWindowLog.run_len ops (NewSlidingWindowLog L ws) h0
    rw [SlidingWindowLog.run_limit ops (NewSlidingWindowLog L ws)] at this
    exact this
  · intro swl now
    constructor
    · intro h
      have h' : ((swl.cleanupOldRequests now).requests.length : ℤ) <
          (swl.cleanupOldRequests now).limit := h
      simp only [SlidingWindowLog.AllowRequest]
      rw [if_pos h']
      rfl
    · intro h
      have h' : ¬ ((swl.cleanupOldRequests now).requests.length : ℤ) <
          (swl.cleanupOldRequests now).limit := h
      simp only [SlidingWindowLog.AllowRequest]
      rw [if_neg h']

/-- Witness for C7: with limit 1, two immediate requests leave exactly one
stored timestamp. -/
theorem C7_slidingWindowLog_size_witness :
    ((((NewSlidingWindowLog 1 10).run [(SWLOp.allow, 0), (SWLOp.allow, 0)]).requests.length : ℕ) : ℤ) ≤ 1 :=
  (C7_slidingWindowLog_size 1 10 [(SWLOp.allow, 0), (SWLOp.allow, 0)] (by norm_num)).1

/-- C8: a TokenBucket constructed with capacity ≥ 0 and refillRate ≥ 0
starts full (`tokens = capacity`) and, after any (monotone-clock) history
of `AllowRequest`/`GetTokens` calls, satisfies `0 ≤ tokens ≤ capacity`
however much time elapses between calls. -/
theorem C8_tokenBucket_bounds (c r t0 : ℚ) (ops : List (TBOp × ℚ))
    (hc : 0 ≤ c) (hr : 0 ≤ r) (hmono : timesMono t0 ops = true) :
    (NewTokenBucket c r t0).tokens = c ∧
    0 ≤ ((NewTokenBucket c r t0).run ops).tokens ∧
    ((NewTokenBucket c r t0).run ops).tokens ≤
      ((NewTokenBucket c r t0).run ops).capacity := by
  have hg : TBgood (NewTokenBucket c r t0) := ⟨hc, hr, hc, le_refl c⟩
  have h := TokenBucket.run_good ops (NewTokenBucket c r t0) hg hmono
  exact ⟨rfl, h.2.2.1, h.2.2.2⟩

/-- Witness for C8: a bucket of capacity 2 admitting one request and then
being read 100 seconds later keeps its level within `[0, 2]`. -/
theorem C8_tokenBucket_bounds_witness :
    (NewTokenBucket 2 1 0).tokens = 2 ∧
    0 ≤ ((NewTokenBucket 2 1 0).run [(TBOp.allow, 0), (TBOp.getTokens, 100)]).tokens ∧
    ((NewTokenBucket 2 1 0).run [(TBOp.allow, 0), (TBOp.getTokens, 100)]).tokens ≤
      ((NewTokenBucket 2 1 0).run [(TBOp.allow, 0), (TBOp.getTokens, 100)]).capacity :=
  C8_tokenBucket_bounds 2 1 0 [(TBOp.allow, 0), (TBOp.getTokens, 100)]
    (by norm_num) (by norm_num) (by decide)

/-- C10: the utilization reads divide by the configured ceiling with no
zero guard: a LeakyBucket constructed with capacity 0 returns NaN from
`GetCapacityUsed`, and `GetWindowInfo` of a FixedWindowCounter (inside an
unexpired window) and of a SlidingWindowLog returns a NaN utilization
percentage when the limit is 0. -/
theorem C10_nan_utilization (r t0 now ws t1 now1 : ℚ)
    (hr : 0 ≤ r) (ht : t0 ≤ now) (hw : now1 - t1 < ws) :
    ((NewLeakyBucket 0 r t0).GetCapacityUsed now).2 = GoFloat.nan ∧
    ((NewFixedWindowCounter 0 ws t1).GetWindowInfo now1).2.2.2.2 = GoFloat.nan ∧
    ((NewSlidingWindowLog 0 ws).GetWindowInfo now1).2.2.2.1 = GoFloat.nan := by
  refine ⟨?_, ?_, ?_⟩
  · have hz : (0 : ℚ) ≤ (now - t0) * r := mul_nonneg (by linarith) hr
    simp [LeakyBucket.GetCapacityUsed, LeakyBucket.leak, NewLeakyBucket,
      GoFloat.fdiv, GoFloat.mulPos, hz]
  · have hns : ¬ ws ≤ now1 - t1 := not_le.mpr hw
    simp [FixedWindowCounter.GetWindowInfo, NewFixedWindowCounter, hns,
      GoFloat.fdiv, GoFloat.mulPos]
  · simp [SlidingWindowLog.GetWindowInfo, NewSlidingWindowLog,
      SlidingWindowLog.cleanupOldRequests, cleanupLoop, GoFloat.fdiv, GoFloat.mulPos]

/-- Witness for C10: all three utilization reads yield NaN at time 0 with
zero ceilings. -/
theorem C10_nan_utilization_witness :
    ((NewLeakyBucket 0 0 0).GetCapacityUsed 0).2 = GoFloat.nan ∧
    ((NewFixedWindowCounter 0 10 0).GetWindowInfo 0).2.2.2.2 = GoFloat.nan ∧
    ((NewSlidingWindowLog 0 10).GetWindowInfo 0).2.2.2.1 = GoFloat.nan :=
  C10_nan_utilization 0 0 0 10 0 0 (by norm_num) (by norm_num) (by norm_num)
